import Mathlib

/-!
Verification development for the ScriptCreator document model
(`src/script.py`): typed sections, scenes, the aggregate `Script` with its
rosters, the insertion-time text formatter (punctuation enforcement and
roster-name capitalization), and the Markdown export grammar.

Python strings are embedded as lists of (ASCII) code points (`List Nat`),
so that Python's `str.upper`/`str.lower`, `string.punctuation` membership
and `re` word characters become arithmetic on codes.  Fallible Python code
(raising `IndexError`, `ValueError`, `AttributeError`) is embedded with
`Option`/`Except`.
-/

deriving instance DecidableEq for Except

namespace ScriptCreator

/-- A Python string, as its list of code points. -/
abbrev Str := List Nat

/-- Code points of a Lean string literal (used to write concrete `Str`s). -/
def str (s : String) : Str := s.toList.map Char.toNat

/-- `str.upper` on one code point (ASCII range, identity elsewhere). -/
def toUpperC (c : Nat) : Nat := if 97 ≤ c ∧ c ≤ 122 then c - 32 else c

/-- `str.lower` on one code point (ASCII range, identity elsewhere). -/
def toLowerC (c : Nat) : Nat := if 65 ≤ c ∧ c ≤ 90 then c + 32 else c

/-- `str.upper` on a whole string. -/
def upperStr (s : Str) : Str := s.map toUpperC

/-- Membership in Python's `string.punctuation`
(`!"#$%&'()*+,-./:;<=>?@[\]^_`\x7b|\x7d~`, i.e. codes 33–47, 58–64, 91–96,
123–126). -/
def isPunct (c : Nat) : Bool :=
  decide ((33 ≤ c ∧ c ≤ 47) ∨ (58 ≤ c ∧ c ≤ 64) ∨ (91 ≤ c ∧ c ≤ 96) ∨ (123 ≤ c ∧ c ≤ 126))

/-- A regex word character (`\w` over ASCII): letters, digits, underscore. -/
def isWordCharC (c : Nat) : Bool :=
  decide ((65 ≤ c ∧ c ≤ 90) ∨ (97 ≤ c ∧ c ≤ 122) ∨ (48 ≤ c ∧ c ≤ 57) ∨ c = 95)

/-- Case-insensitive comparison of two code points (`re.I`). -/
def ciEq (a b : Nat) : Bool := toLowerC a == toLowerC b

/-- Does `pat` match the beginning of `text`, case-insensitively? -/
def ciStarts : Str → Str → Bool
  | [], _ => true
  | _ :: _, [] => false
  | a :: as, b :: bs => ciEq a b && ciStarts as bs

/-- Is the character at position `p` of `t` a word character (out of range
counts as not)? -/
def wordAt (t : Str) (p : Nat) : Bool :=
  match t.get? p with
  | some c => isWordCharC c
  | none => false

/-- A `\b` word boundary at position `p` of `t`: exactly one of the
neighbouring characters is a word character. -/
def boundary (t : Str) (p : Nat) : Bool :=
  (if p = 0 then false else wordAt t (p - 1)) != wordAt t p

/-- Code point of `'` (apostrophe). -/
def apos : Nat := 39

/-- Code point of `s`. -/
def sLow : Nat := 115

/-- The suffix alternatives of the pattern `\b NOUN '?s?\b`, in the greedy
backtracking order the regex engine tries them. -/
def suffixCands : List Str := [[apos, sLow], [apos], [sLow], []]

/-- One attempt of the regex `\b NOUN '?s?\b` (case-insensitive) at position
`p` of `t`; returns the length of the match if it succeeds. -/
def tryMatch (t N : Str) (p : Nat) : Option Nat :=
  if boundary t p && ciStarts N (t.drop p) then
    (suffixCands.find? fun suf =>
      ciStarts suf (t.drop (p + N.length)) && boundary t (p + N.length + suf.length)).map
      fun suf => N.length + suf.length
  else none

/-- Scanning loop of `re.finditer`: leftmost, non-overlapping matches from
position `p` on; `fuel` bounds the recursion (a zero-length match advances
the scan by one position, as the Python engine does). -/
def findFrom (t N : Str) : Nat → Nat → List (Nat × Nat)
  | _, 0 => []
  | p, fuel + 1 =>
    if p > t.length then []
    else
      match tryMatch t N p with
      | some len => (p, len) :: findFrom t N (p + max len 1) fuel
      | none => findFrom t N (p + 1) fuel

/-- All matches `(start, length)` of `re.finditer(rf"\b{noun}'?s?\b", t, re.I)`. -/
def findMatches (t N : Str) : List (Nat × Nat) := findFrom t N 0 (t.length + 1)

/-- One replacement step of `_modify_stage_drctn`'s loop:
`res = res[:m.start()] + m.group().upper() + res[m.end():]`, where the match
group is taken from `drctn` (Python slicing clamps, as `take`/`drop` do). -/
def splice (drctn : Str) (res : Str) (m : Nat × Nat) : Str :=
  res.take m.1 ++ ((drctn.drop m.1).take m.2).map toUpperC ++ res.drop (m.1 + m.2)

/-- The inner loop of `_modify_stage_drctn` for one roster noun. -/
def applyNoun (drctn : Str) (res : Str) (N : Str) : Str :=
  (findMatches drctn N).foldl (splice drctn) res

/-- The capitalization loop of `_modify_stage_drctn`: every noun's matches
(computed against `drctn`) are spliced into `res`. -/
def capitalize (drctn : Str) (res : Str) (nouns : List Str) : Str :=
  nouns.foldl (applyNoun drctn) res

/-- Is position `p` of `drctn` inside some match of some roster noun?
(Specification-side helper used to characterize the capitalization loop.) -/
def coveredB (drctn : Str) (nouns : List Str) (p : Nat) : Bool :=
  nouns.any fun N => (findMatches drctn N).any fun m => decide (m.1 ≤ p ∧ p < m.1 + m.2)

/-- The punctuation-enforcement step of `_modify_stage_drctn` with
`punct=True`: `drctn + ('' if drctn[-1] in string.punctuation else '.')`
(total only on nonempty strings; `46` is `'.'`). -/
def pnctTrue (drctn : Str) : Str :=
  drctn ++ (if isPunct (drctn.getLast?.getD 0) then [] else [46])

/-- `Script._modify_stage_drctn` on a present (non-`None`) direction:
`none` models the `IndexError` raised by `drctn[-1]` on an empty string. -/
def modifyStageDrctnSome (nouns : List Str) (drctn : Str) (punct : Bool) : Option Str :=
  match drctn.getLast? with
  | none => none
  | some c =>
    let res := if punct then drctn ++ (if isPunct c then [] else [46])
               else if isPunct c then drctn.dropLast else drctn
    some (capitalize drctn res nouns)

/-- `Script._modify_stage_drctn` (script.py:303-323): `None` passes through. -/
def modifyStageDrctn (nouns : List Str) (drctn : Option Str) (punct : Bool) :
    Option (Option Str) :=
  match drctn with
  | none => some none
  | some d => (modifyStageDrctnSome nouns d punct).map some

/-- `Script._modify_line` (script.py:325-336): append `'.'` unless the line
already ends in punctuation; `none` models the `IndexError` raised by
`line[-1]` on an empty string. -/
def modifyLine (line : Str) : Option Str :=
  match line.getLast? with
  | none => none
  | some c => if isPunct c then some line else some (line ++ [46])

/-- The leaf `Section` variants of script.py: `RawSection`, `CharacterLine`
and `StageDirection` (`Scene` is modelled separately below). -/
inductive Section where
  | rawSection (markdown : Str)
  | characterLine (character : Str) (line : Str) (stage_drctn : Option Str)
  | stageDirection (direction : Str)
deriving DecidableEq

/-- Python `sep.join(parts)` / `str.split(sep)` helper: exact (case-sensitive)
prefix test. -/
def beginsWith : Str → Str → Bool
  | [], _ => true
  | _ :: _, [] => false
  | a :: as, b :: bs => a == b && beginsWith as bs

/-- Fuel-bounded body of Python `s.split(sep)` for a nonempty separator:
leftmost, non-overlapping occurrences. -/
def pySplitFuel (sep : Str) : Nat → Str → List Str
  | 0, s => [s]
  | fuel + 1, s =>
    match s with
    | [] => [[]]
    | c :: rest =>
      if beginsWith sep (c :: rest) then
        [] :: pySplitFuel sep fuel ((c :: rest).drop sep.length)
      else
        match pySplitFuel sep fuel rest with
        | [] => [[c]]
        | h :: tl => (c :: h) :: tl

/-- Python `s.split(sep)`. -/
def pySplit (sep s : Str) : List Str := pySplitFuel sep (s.length + 1) s

/-- `export_to_markdown` of the three leaf section variants
(script.py:41-42, 64-68, 86-87). -/
def Section.export_to_markdown : Section → Str
  | .rawSection md => md
  | .characterLine c l d =>
      str "**" ++ upperStr c ++ str "**:" ++
        (match d with
         | none => []
         | some dd => str " *(" ++ dd ++ str ")*") ++ str "\n\n" ++ l
  | .stageDirection d =>
      str "*(" ++ List.intercalate (str ")*\n\n*(") (pySplit (str "\n\n") d) ++ str ")*"

/-- `Section.copy` of the leaf variants: a fresh object with the same fields. -/
def Section.copy : Section → Section
  | .rawSection md => .rawSection md
  | .characterLine c l d => .characterLine c l d
  | .stageDirection d => .stageDirection d

/-- `Scene` (script.py:93-144): a scene number and an ordered section list. -/
structure Scene where
  scene_num : Int
  sections : List Section
deriving DecidableEq

/-- `Scene.add_section`: append. -/
def Scene.add_section (sc : Scene) (s : Section) : Scene :=
  { sc with sections := sc.sections ++ [s] }

/-- `Scene.num_sections`. -/
def Scene.num_sections (sc : Scene) : Nat := sc.sections.length

/-- `Scene.copy`: same number, every section copied. -/
def Scene.copy (sc : Scene) : Scene :=
  ⟨sc.scene_num, sc.sections.map Section.copy⟩

/-- `Scene.export_to_markdown` (script.py:140-141). -/
def Scene.export_to_markdown (sc : Scene) : Str :=
  str "## Scene " ++ str (toString sc.scene_num) ++ [10] ++
    List.intercalate (str "\n\n<br/>\n\n") (sc.sections.map Section.export_to_markdown)

/-- Exceptions the modelled code can raise. -/
inductive PyExn where
  /-- `IndexError('Tried to access scene ... but there are only ... scenes.')` -/
  | indexOutOfRange
  /-- `IndexError('There is no scene 0.')` -/
  | noSceneZero
  /-- Python's built-in `IndexError: list index out of range`. -/
  | listIndexOutOfRange
  /-- Python's built-in `IndexError: string index out of range`. -/
  | stringIndexOutOfRange
  /-- `ValueError('Cannot export script to Markdown: title is not set.')` -/
  | valueErrorTitleNotSet
  /-- `AttributeError: 'Script' object has no attribute '_title'`. -/
  | attributeErrorNoTitle
deriving DecidableEq

/-- Resolve a Python index `i` against a list of length `len`: nonnegative
indices must be `< len`, negative indices wrap once by `+ len`. -/
def pyIdx (len : Nat) (i : Int) : Option Nat :=
  if 0 ≤ i then (if i < (len : Int) then some i.toNat else none)
  else (if 0 ≤ i + len then some (i + len).toNat else none)

/-- Python `l[i]`. -/
def pyGet {α : Type} (l : List α) (i : Int) : Option α :=
  (pyIdx l.length i).bind l.get?

/-- Replace the element at (resolved, in-bounds) position `n`. -/
def listModify {α : Type} (f : α → α) : Nat → List α → List α
  | _, [] => []
  | 0, a :: as => f a :: as
  | n + 1, a :: as => a :: listModify f n as

/-- Remove the element at (resolved, in-bounds) position `n` (`del l[n]`). -/
def listErase {α : Type} : Nat → List α → List α
  | _, [] => []
  | 0, _ :: as => as
  | n + 1, a :: as => a :: listErase n as

/-- `Scene.delete_section` (script.py:132-138): `del self._sections[i]`. -/
def Scene.delete_section (sc : Scene) (i : Int) : Except PyExn Scene :=
  match pyIdx sc.sections.length i with
  | none => .error .listIndexOutOfRange
  | some n => .ok ⟨sc.scene_num, listErase n sc.sections⟩

/-- `Script` (script.py:147-336).  The character/location sets are modelled
as duplicate-free insertion lists (`add_character` guards membership). -/
structure Script where
  characters : List Str
  locations : List Str
  title : Option Str
  subtitle : Option Str
  scenes : List Scene
deriving DecidableEq

/-- `Script.__init__`: everything empty / unset. -/
def Script.new : Script := ⟨[], [], none, none, []⟩

/-- `Script.num_scenes`. -/
def Script.num_scenes (s : Script) : Nat := s.scenes.length

/-- `Script.set_title`. -/
def Script.set_title (s : Script) (t : Str) : Script := { s with title := some t }

/-- `Script.set_subtitle`. -/
def Script.set_subtitle (s : Script) (t : Str) : Script := { s with subtitle := some t }

/-- `Script.add_character`: set insert; the Bool mirrors the return value. -/
def Script.add_character (s : Script) (c : Str) : Script × Bool :=
  if s.characters.contains c then (s, false)
  else ({ s with characters := s.characters ++ [c] }, true)

/-- `Script.add_location`: set insert; the Bool mirrors the return value. -/
def Script.add_location (s : Script) (c : Str) : Script × Bool :=
  if s.locations.contains c then (s, false)
  else ({ s with locations := s.locations ++ [c] }, true)

/-- `Script.add_scene`: append a `Scene(len(self._scenes) + 1, *sections)`. -/
def Script.add_scene (s : Script) (sections : List Section) : Script :=
  { s with scenes := s.scenes ++ [⟨(s.num_scenes : Int) + 1, sections⟩] }

/-- `self._characters.union(self._locations)` — the roster snapshot the
formatter capitalizes against. -/
def Script.to_capitalize (s : Script) : List Str :=
  s.characters ++ s.locations.filter (fun n => !s.characters.contains n)

/-- `Script._scene_num_to_idx` (script.py:288-301).  Note the negative
branch returns `scene_num + num_scenes` with no further validation. -/
def Script.scene_num_to_idx (s : Script) (scene_num : Int) : Except PyExn Int :=
  if scene_num > (s.num_scenes : Int) then .error .indexOutOfRange
  else if scene_num = 0 then .error .noSceneZero
  else if scene_num < 0 then .ok (scene_num + s.num_scenes)
  else .ok (scene_num - 1)

/-- `Script.get_scene` (script.py:244-251): resolve, then return a copy. -/
def Script.get_scene (s : Script) (scene_num : Int) : Except PyExn Scene :=
  match s.scene_num_to_idx scene_num with
  | .error e => .error e
  | .ok idx =>
    match pyGet s.scenes idx with
    | none => .error .listIndexOutOfRange
    | some sc => .ok sc.copy

/-- `Script.get_scene_length` (script.py:253-260). -/
def Script.get_scene_length (s : Script) (scene_num : Int) : Except PyExn Nat :=
  match s.scene_num_to_idx scene_num with
  | .error e => .error e
  | .ok idx =>
    match pyGet s.scenes idx with
    | none => .error .listIndexOutOfRange
    | some sc => .ok sc.num_sections

/-- The formatter phase of `Script.add_section` (script.py:237-241),
mutating the passed-in section in place.  The second component is the
section object's state when the phase ends, even if it raised: for a
`CharacterLine`, `stage_drctn` is reassigned before `line` is touched, so a
raise from `_modify_line` leaves a partially mutated section. -/
def Script.format_section (s : Script) (sec : Section) : Except PyExn Section × Section :=
  match sec with
  | .stageDirection d =>
    match modifyStageDrctnSome s.to_capitalize d true with
    | none => (.error .stringIndexOutOfRange, sec)
    | some d2 => (.ok (.stageDirection d2), .stageDirection d2)
  | .characterLine c l d =>
    match modifyStageDrctn s.to_capitalize d false with
    | none => (.error .stringIndexOutOfRange, sec)
    | some d2 =>
      match modifyLine l with
      | none => (.error .stringIndexOutOfRange, .characterLine c l d2)
      | some l2 => (.ok (.characterLine c l2 d2), .characterLine c l2 d2)
  | .rawSection md => (.ok (.rawSection md), .rawSection md)

/-- `Script.add_section` (script.py:230-242).  The formatter runs first (on
the source lines 237-241), and only then is `scene_num` resolved and the
section appended.  The second component is the final state of the
passed-in section object. -/
def Script.add_section (s : Script) (scene_num : Int) (sec : Section) :
    Except PyExn Script × Section :=
  match s.format_section sec with
  | (.error e, sec2) => (.error e, sec2)
  | (.ok sec2, _) =>
    match s.scene_num_to_idx scene_num with
    | .error e => (.error e, sec2)
    | .ok idx =>
      match pyIdx s.scenes.length idx with
      | none => (.error .listIndexOutOfRange, sec2)
      | some n =>
        (.ok { s with scenes := listModify (fun sc => sc.add_section sec2) n s.scenes },
         sec2)

/-- `Script.delete_section` (script.py:262-269). -/
def Script.delete_section (s : Script) (scene_num : Int) (section_idx : Int) :
    Except PyExn Script :=
  match s.scene_num_to_idx scene_num with
  | .error e => .error e
  | .ok idx =>
    match pyIdx s.scenes.length idx with
    | none => .error .listIndexOutOfRange
    | some n =>
      match s.scenes.get? n with
      | none => .error .listIndexOutOfRange
      | some sc =>
        match sc.delete_section section_idx with
        | .error e => .error e
        | .ok sc2 => .ok { s with scenes := listModify (fun _ => sc2) n s.scenes }

/-- `Script.export_to_markdown` (script.py:271-277). -/
def Script.export_to_markdown (s : Script) : Except PyExn Str :=
  match s.title with
  | none => .error .valueErrorTitleNotSet
  | some t =>
    let subtitle := match s.subtitle with
                    | none => ([] : Str)
                    | some st => str "\n\n" ++ st
    let title := str "# " ++ t ++ subtitle
    let scenes := List.intercalate (str "\n\n<br/>\n\n<br/>\n\n")
      (s.scenes.map Scene.export_to_markdown)
    .ok (title ++ str "\n\n<br/>\n\n<br/>\n\n" ++ scenes)

/-- `Script.copy` (script.py:279-286).  Its first statement evaluates
`self._title`, but `Script.__init__` only ever assigns `self.title` (and
`self.subtitle`); no `_title` attribute exists on any `Script` instance and
the class defines no `__getattr__`, so every call raises `AttributeError`
before anything is copied. -/
def Script.copy (_s : Script) : Except PyExn Script :=
  .error .attributeErrorNoTitle

/-- The scripts reachable from `Script()` by the public operations (the
read-only accessors and the always-raising `copy` produce no new state; a
raising `add_section`/`delete_section` leaves the script state as it was). -/
inductive Reachable : Script → Prop where
  | init : Reachable Script.new
  | set_title {s : Script} {t : Str} : Reachable s → Reachable (s.set_title t)
  | set_subtitle {s : Script} {t : Str} : Reachable s → Reachable (s.set_subtitle t)
  | add_character {s : Script} {c : Str} : Reachable s → Reachable (s.add_character c).1
  | add_location {s : Script} {c : Str} : Reachable s → Reachable (s.add_location c).1
  | add_scene {s : Script} {secs : List Section} : Reachable s → Reachable (s.add_scene secs)
  | add_section_ok {s : Script} {n : Int} {sec sec2 : Section} {s2 : Script} :
      Reachable s → s.add_section n sec = (.ok s2, sec2) → Reachable s2
  | delete_section_ok {s : Script} {n i : Int} {s2 : Script} :
      Reachable s → s.delete_section n i = .ok s2 → Reachable s2

/-- Did this call return normally? -/
def isOkE {ε α : Type} : Except ε α → Bool
  | .ok _ => true
  | .error _ => false

/-! ## Index-resolution lemmas -/

theorem scene_num_to_idx_zero (s : Script) :
    s.scene_num_to_idx 0 = .error .noSceneZero := by
  unfold Script.scene_num_to_idx
  split_ifs <;> first | rfl | omega

theorem scene_num_to_idx_high {s : Script} {k : Int} (h : (s.num_scenes : Int) < k) :
    s.scene_num_to_idx k = .error .indexOutOfRange := by
  unfold Script.scene_num_to_idx
  split_ifs <;> first | rfl | omega

theorem scene_num_to_idx_neg {s : Script} {k : Int} (h : k < 0) :
    s.scene_num_to_idx k = .ok (k + s.num_scenes) := by
  unfold Script.scene_num_to_idx
  split_ifs <;> first | rfl | omega

theorem scene_num_to_idx_pos {s : Script} {k : Int} (h1 : 1 ≤ k)
    (h2 : k ≤ (s.num_scenes : Int)) :
    s.scene_num_to_idx k = .ok (k - 1) := by
  unfold Script.scene_num_to_idx
  split_ifs <;> first | rfl | omega

theorem pyIdx_nonneg {len : Nat} {i : Int} (h0 : 0 ≤ i) (h1 : i < (len : Int)) :
    pyIdx len i = some i.toNat := by
  unfold pyIdx
  split_ifs <;> first | rfl | omega

theorem pyIdx_neg {len : Nat} {i : Int} (h0 : i < 0) (h1 : 0 ≤ i + (len : Int)) :
    pyIdx len i = some (i + len).toNat := by
  unfold pyIdx
  split_ifs <;> first | rfl | omega

theorem pyIdx_low {len : Nat} {i : Int} (h0 : i + (len : Int) < 0) :
    pyIdx len i = none := by
  unfold pyIdx
  split_ifs <;> first | rfl | omega

theorem get_scene_resolver_error {s : Script} {k : Int} {e : PyExn}
    (h : s.scene_num_to_idx k = .error e) : s.get_scene k = .error e := by
  unfold Script.get_scene
  rw [h]

theorem get_scene_length_resolver_error {s : Script} {k : Int} {e : PyExn}
    (h : s.scene_num_to_idx k = .error e) : s.get_scene_length k = .error e := by
  unfold Script.get_scene_length
  rw [h]

theorem delete_section_resolver_error {s : Script} {k i : Int} {e : PyExn}
    (h : s.scene_num_to_idx k = .error e) : s.delete_section k i = .error e := by
  unfold Script.delete_section
  rw [h]

theorem add_section_resolver_error {s : Script} {k : Int} {sec : Section} {e : PyExn}
    (h : s.scene_num_to_idx k = .error e) :
    isOkE (s.add_section k sec).1 = false := by
  unfold Script.add_section
  cases hf : s.format_section sec with
  | mk fst snd => cases fst <;> simp [h, isOkE]

/-! ## Scene-list surgery lemmas -/

theorem listModify_get? {α : Type} (f : α → α) (m i : Nat) (l : List α) :
    (listModify f m l).get? i = if i = m then (l.get? m).map f else l.get? i := by
  induction l generalizing m i with
  | nil => cases m <;> cases i <;> simp [listModify]
  | cons a as ih =>
    cases m with
    | zero => cases i <;> simp [listModify]
    | succ m' =>
      cases i with
      | zero => simp [listModify]
      | succ i' => simpa [listModify] using ih m' i'

theorem add_character_scenes (s : Script) (c : Str) :
    (s.add_character c).1.scenes = s.scenes := by
  unfold Script.add_character
  split <;> rfl

theorem add_location_scenes (s : Script) (c : Str) :
    (s.add_location c).1.scenes = s.scenes := by
  unfold Script.add_location
  split <;> rfl

theorem add_section_ok_scenes {s : Script} {n : Int} {sec sec2 : Section} {s2 : Script}
    (h : s.add_section n sec = (.ok s2, sec2)) :
    ∃ m, s2.scenes = listModify (fun sc => sc.add_section sec2) m s.scenes := by
  unfold Script.add_section at h
  cases hf : s.format_section sec with
  | mk fst snd =>
    rw [hf] at h
    cases fst with
    | error e => simp at h
    | ok v =>
      dsimp only at h
      cases hr : s.scene_num_to_idx n with
      | error e => rw [hr] at h; simp at h
      | ok idx =>
        rw [hr] at h
        dsimp only at h
        cases hp : pyIdx s.scenes.length idx with
        | none => rw [hp] at h; simp at h
        | some m =>
          rw [hp] at h
          dsimp only at h
          simp only [Prod.mk.injEq, Except.ok.injEq] at h
          obtain ⟨h1, h2⟩ := h
          subst h2
          exact ⟨m, by rw [← h1]⟩

theorem delete_section_ok_scenes {s : Script} {n i : Int} {s2 : Script}
    (h : s.delete_section n i = .ok s2) :
    ∃ m sc2, s2.scenes = listModify (fun _ => sc2) m s.scenes ∧
      (s.scenes.get? m).map Scene.scene_num = some sc2.scene_num := by
  unfold Script.delete_section at h
  cases hr : s.scene_num_to_idx n with
  | error e => rw [hr] at h; simp at h
  | ok idx =>
    rw [hr] at h
    dsimp only at h
    cases hp : pyIdx s.scenes.length idx with
    | none => rw [hp] at h; simp at h
    | some m =>
      rw [hp] at h
      dsimp only at h
      cases hg : s.scenes.get? m with
      | none => rw [hg] at h; simp at h
      | some sc =>
        rw [hg] at h
        dsimp only at h
        cases hd : sc.delete_section i with
        | error e => rw [hd] at h; simp at h
        | ok sc2 =>
          rw [hd] at h
          dsimp only at h
          simp only [Except.ok.injEq] at h
          refine ⟨m, sc2, by rw [← h], ?_⟩
          unfold Scene.delete_section at hd
          cases hpi : pyIdx sc.sections.length i with
          | none => rw [hpi] at hd; simp at hd
          | some q =>
            rw [hpi] at hd
            simp only [Except.ok.injEq] at hd
            rw [hg, ← hd]
            simp

/-- The C7 invariant, proved for every reachable script by induction over
the generating operation sequence. -/
theorem sceneNumInv_of_reachable {s : Script} (hs : Reachable s) :
    ∀ (i : Nat) (sc : Scene), s.scenes.get? i = some sc → sc.scene_num = (i : Int) + 1 := by
  induction hs with
  | init => intro i sc h; simp [Script.new] at h
  | set_title _ ih => exact ih
  | set_subtitle _ ih => exact ih
  | @add_character s0 c _ ih =>
    intro i sc h
    rw [add_character_scenes] at h
    exact ih i sc h
  | @add_location s0 c _ ih =>
    intro i sc h
    rw [add_location_scenes] at h
    exact ih i sc h
  | @add_scene s0 secs _ ih =>
    intro i sc h
    unfold Script.add_scene at h
    dsimp only at h
    by_cases hlt : i < s0.scenes.length
    · rw [List.get?_append hlt] at h
      exact ih i sc h
    · rw [List.get?_append_right (Nat.le_of_not_lt hlt)] at h
      have hi0 : i - s0.scenes.length = 0 := by
        cases hq : i - s0.scenes.length with
        | zero => rfl
        | succ q => rw [hq] at h; simp at h
      have hieq : i = s0.scenes.length := by omega
      rw [hi0] at h
      simp only [List.get?] at h
      injection h with h2
      rw [← h2]
      simp [Script.num_scenes, hieq]
  | @add_section_ok s0 n sec sec2 s2 _ hEq ih =>
    intro i sc h
    obtain ⟨m, hm⟩ := add_section_ok_scenes hEq
    rw [hm, listModify_get?] at h
    by_cases him : i = m
    · subst him
      rw [if_pos rfl] at h
      cases hg : s0.scenes.get? i with
      | none => rw [hg] at h; simp at h
      | some sc0 =>
        rw [hg] at h
        simp only [Option.map] at h
        injection h with h2
        rw [← h2]
        exact ih i sc0 hg
    · rw [if_neg him] at h
      exact ih i sc h
  | @delete_section_ok s0 n i0 s2 _ hEq ih =>
    intro i sc h
    obtain ⟨m, sc2, hm, hnum⟩ := delete_section_ok_scenes hEq
    rw [hm, listModify_get?] at h
    by_cases him : i = m
    · subst him
      rw [if_pos rfl] at h
      cases hg : s0.scenes.get? i with
      | none => rw [hg] at h; simp at h
      | some sc0 =>
        rw [hg] at h
        simp only [Option.map] at h
        injection h with h2
        rw [hg] at hnum
        simp only [Option.map] at hnum
        injection hnum with h3
        rw [← h2, ← h3]
        exact ih i sc0 hg
    · rw [if_neg him] at h
      exact ih i sc h

/-! ## Formatter lemmas: characters -/

theorem toUpperC_toUpperC (c : Nat) : toUpperC (toUpperC c) = toUpperC c := by
  unfold toUpperC
  split_ifs <;> omega

theorem toLowerC_toUpperC (c : Nat) : toLowerC (toUpperC c) = toLowerC c := by
  unfold toLowerC toUpperC
  split_ifs <;> omega

theorem isWordCharC_of_toLowerC_eq {a b : Nat} (h : toLowerC a = toLowerC b) :
    isWordCharC a = isWordCharC b := by
  unfold toLowerC at h
  unfold isWordCharC
  rw [decide_eq_decide]
  split_ifs at h <;> omega

theorem toUpperC_of_isPunct {c : Nat} (h : isPunct c = true) : toUpperC c = c := by
  unfold isPunct at h
  unfold toUpperC
  rw [decide_eq_true_eq] at h
  split_ifs with h2 <;> omega

/-! ## Formatter lemmas: case-insensitive prefix matching -/

theorem ciStarts_length_le {N xs : Str} (h : ciStarts N xs = true) :
    N.length ≤ xs.length := by
  induction N generalizing xs with
  | nil => simp
  | cons a as ih =>
    cases xs with
    | nil => simp [ciStarts] at h
    | cons b bs =>
      simp only [ciStarts, Bool.and_eq_true] at h
      simpa using ih h.2

theorem ciStarts_false_of_length {N xs : Str} (h : xs.length < N.length) :
    ciStarts N xs = false := by
  by_contra hc
  have := ciStarts_length_le (by simpa using Bool.of_not_eq_false hc)
  omega

theorem ciStarts_append_left {N xs : Str} (ys : Str) (h : N.length ≤ xs.length) :
    ciStarts N (xs ++ ys) = ciStarts N xs := by
  induction N generalizing xs with
  | nil => simp [ciStarts]
  | cons a as ih =>
    cases xs with
    | nil => simp at h
    | cons b bs =>
      simp only [List.cons_append, ciStarts, List.append_eq]
      rw [ih (by simpa using h)]

theorem ciStarts_congr {xs ys : Str} (N : Str)
    (h : xs.map toLowerC = ys.map toLowerC) : ciStarts N xs = ciStarts N ys := by
  induction N generalizing xs ys with
  | nil => rfl
  | cons a as ih =>
    cases xs with
    | nil =>
      cases ys with
      | nil => rfl
      | cons y ys' => simp at h
    | cons x xs' =>
      cases ys with
      | nil => simp at h
      | cons y ys' =>
        simp only [List.map_cons, List.cons.injEq] at h
        simp only [ciStarts, ciEq, h.1, ih h.2]

/-! ## Formatter lemmas: word boundaries -/

theorem wordAt_congr {s t : Str} (h : s.map toLowerC = t.map toLowerC) (p : Nat) :
    wordAt s p = wordAt t p := by
  unfold wordAt
  have hs := List.get?_map toLowerC s p
  have ht := List.get?_map toLowerC t p
  rw [h] at hs
  rw [hs] at ht
  cases h1 : s.get? p with
  | none =>
    rw [h1] at ht
    cases h2 : t.get? p with
    | none => rfl
    | some c => rw [h2] at ht; simp at ht
  | some c =>
    rw [h1] at ht
    cases h2 : t.get? p with
    | none => rw [h2] at ht; simp at ht
    | some c2 =>
      rw [h2] at ht
      simp only [Option.map, Option.some.injEq] at ht
      exact isWordCharC_of_toLowerC_eq ht

theorem boundary_congr {s t : Str} (h : s.map toLowerC = t.map toLowerC) (p : Nat) :
    boundary s p = boundary t p := by
  unfold boundary
  rw [wordAt_congr h, wordAt_congr h]

theorem wordAt_append_dot (w : Str) (p : Nat) :
    wordAt (w ++ [46]) p = wordAt w p := by
  unfold wordAt
  rcases Nat.lt_trichotomy p w.length with h | h | h
  · rw [List.get?_append h]
  · subst h
    rw [List.get?_concat_length, List.get?_eq_none.mpr (le_refl _)]
    rfl
  · rw [List.get?_eq_none.mpr (by simp; omega), List.get?_eq_none.mpr (by omega)]

theorem boundary_append_dot (w : Str) (p : Nat) :
    boundary (w ++ [46]) p = boundary w p := by
  unfold boundary
  rw [wordAt_append_dot, wordAt_append_dot]

theorem find?_congr {α : Type} {p q : α → Bool} (l : List α) (h : ∀ a ∈ l, p a = q a) :
    l.find? p = l.find? q := by
  induction l with
  | nil => rfl
  | cons a as ih =>
    simp only [List.find?]
    rw [h a (by simp)]
    cases q a
    · exact ih fun x hx => h x (by simp [hx])
    · rfl

theorem wordAt_oob {w : Str} {p : Nat} (h : w.length ≤ p) : wordAt w p = false := by
  unfold wordAt
  rw [List.get?_eq_none.mpr h]

theorem boundary_oob (w : Str) (p : Nat) (h : w.length < p) : boundary w p = false := by
  unfold boundary
  rw [wordAt_oob (by omega)]
  by_cases h0 : p = 0
  · omega
  · rw [if_neg h0, wordAt_oob (by omega)]
    rfl

/-! ## Formatter lemmas: the single-position match attempt -/

theorem tryMatch_congr {s t : Str} (h : s.map toLowerC = t.map toLowerC)
    (N : Str) (p : Nat) : tryMatch s N p = tryMatch t N p := by
  have hlen : s.length = t.length := by
    have h2 := congrArg List.length h
    simpa using h2
  have hb : ∀ q, boundary s q = boundary t q := boundary_congr h
  have hc : ∀ (M : Str) (q : Nat), ciStarts M (s.drop q) = ciStarts M (t.drop q) := by
    intro M q
    apply ciStarts_congr
    rw [List.map_drop, List.map_drop, h]
  unfold tryMatch
  simp only [hb, hc, hlen]

/-- Appending the period that punctuation enforcement adds does not change
any single-position match attempt: a match can never extend through the
final `'.'` because the closing `\\b` would have to fall after a non-word
character at the very end of the text. -/
theorem tryMatch_append_dot (w N : Str) (p : Nat) :
    tryMatch (w ++ [46]) N p = tryMatch w N p := by
  have hb : ∀ q, boundary (w ++ [46]) q = boundary w q := boundary_append_dot w
  unfold tryMatch
  by_cases hp : p ≤ w.length
  case neg =>
    have hwp : w.drop p = [] := List.drop_eq_nil_of_le (by omega)
    have hyp : (w ++ [46]).drop p = [] := List.drop_eq_nil_of_le (by simp; omega)
    rw [hwp, hyp, hb, boundary_oob w p (by omega)]
    rfl
  case pos =>
  have hdrop : (w ++ [46]).drop p = w.drop p ++ [46] :=
    List.drop_append_of_le_length hp
  by_cases hcw : ciStarts N (w.drop p) = true
  · have hNle : N.length ≤ w.length - p := by
      have h2 := ciStarts_length_le hcw
      simpa using h2
    have hcy : ciStarts N ((w ++ [46]).drop p) = true := by
      rw [hdrop, @ciStarts_append_left N (w.drop p) [46] (by simp; omega)]
      exact hcw
    rw [hcw, hcy, hb]
    by_cases hbp : boundary w p = true
    · rw [hbp]
      simp only [Bool.true_and, if_true]
      have hq0 : p + N.length ≤ w.length := by omega
      have hdrop2 : (w ++ [46]).drop (p + N.length) = w.drop (p + N.length) ++ [46] :=
        List.drop_append_of_le_length hq0
      have hpred : ∀ suf ∈ suffixCands,
          (ciStarts suf ((w ++ [46]).drop (p + N.length)) &&
            boundary (w ++ [46]) (p + N.length + suf.length)) =
          (ciStarts suf (w.drop (p + N.length)) &&
            boundary w (p + N.length + suf.length)) := by
        intro suf _
        rw [hdrop2, hb]
        by_cases hs1 : suf.length ≤ w.length - (p + N.length)
        · rw [@ciStarts_append_left suf (w.drop (p + N.length)) [46] (by simp; omega)]
        · by_cases hs2 : suf.length = w.length - (p + N.length) + 1
          · rw [boundary_oob w _ (by omega),
              @ciStarts_false_of_length suf (w.drop (p + N.length)) (by simp; omega)]
            simp
          · rw [@ciStarts_false_of_length suf (w.drop (p + N.length) ++ [46])
                (by simp; omega),
              @ciStarts_false_of_length suf (w.drop (p + N.length)) (by simp; omega)]
      rw [find?_congr suffixCands hpred]
    · have hbp2 : boundary w p = false := by simpa using hbp
      rw [hbp2]
      rfl
  · have hcw2 : ciStarts N (w.drop p) = false := by simpa using hcw
    by_cases hcy : ciStarts N ((w ++ [46]).drop p) = true
    · by_cases hN : N.length ≤ w.length - p
      · exfalso
        rw [hdrop, @ciStarts_append_left N (w.drop p) [46] (by simp; omega)] at hcy
        rw [hcy] at hcw2
        exact Bool.true_eq_false.mp hcw2
      · have hle : N.length ≤ w.length + 1 - p := by
          have h2 := ciStarts_length_le hcy
          simp at h2
          omega
        have hNeq : N.length = w.length - p + 1 := by omega
        rw [hcy, hcw2, hb]
        by_cases hbp : boundary w p = true
        · rw [hbp]
          simp only [Bool.true_and, Bool.and_false, if_true, if_false]
          have hnone : (suffixCands.find? fun suf =>
              ciStarts suf ((w ++ [46]).drop (p + N.length)) &&
                boundary (w ++ [46]) (p + N.length + suf.length)) = none := by
            rw [List.find?_eq_none]
            intro suf _
            have hdr : (w ++ [46]).drop (p + N.length) = [] :=
              List.drop_eq_nil_of_le (by simp; omega)
            rw [hdr, hb, boundary_oob w _ (by omega)]
            simp
          rw [hnone]
          rfl
        · have hbp2 : boundary w p = false := by simpa using hbp
          rw [hbp2]
          rfl
    · have hcy2 : ciStarts N ((w ++ [46]).drop p) = false := by simpa using hcy
      rw [hcw2, hcy2]
      simp

/-! ## Formatter lemmas: the scanning loop -/

theorem findFrom_oob (t N : Str) (fuel p : Nat) (h : t.length < p) :
    findFrom t N p fuel = [] := by
  cases fuel with
  | zero => rfl
  | succ f =>
    unfold findFrom
    rw [if_pos (by omega)]

theorem findFrom_fuel (t N : Str) :
    ∀ f1 f2 p, t.length + 1 ≤ f1 + p → t.length + 1 ≤ f2 + p →
      findFrom t N p f1 = findFrom t N p f2 := by
  intro f1
  induction f1 with
  | zero =>
    intro f2 p h1 h2
    rw [findFrom_oob t N 0 p (by omega), findFrom_oob t N f2 p (by omega)]
  | succ f1' ih =>
    intro f2 p h1 h2
    cases f2 with
    | zero => rw [findFrom_oob t N _ p (by omega), findFrom_oob t N 0 p (by omega)]
    | succ f2' =>
      unfold findFrom
      by_cases hgt : p > t.length
      · rw [if_pos hgt, if_pos hgt]
      · rw [if_neg hgt, if_neg hgt]
        cases hm : tryMatch t N p with
        | some len =>
          dsimp only
          rw [ih f2' (p + max len 1) (by omega) (by omega)]
        | none =>
          dsimp only
          rw [ih f2' (p + 1) (by omega) (by omega)]

theorem findFrom_map_congr {s t : Str} (h : s.map toLowerC = t.map toLowerC) (N : Str) :
    ∀ fuel p, findFrom s N p fuel = findFrom t N p fuel := by
  have hlen : s.length = t.length := by
    have h2 := congrArg List.length h
    simpa using h2
  intro fuel
  induction fuel with
  | zero => intro p; rfl
  | succ f ih =>
    intro p
    unfold findFrom
    rw [hlen, tryMatch_congr h]
    by_cases hgt : p > t.length
    · rw [if_pos hgt, if_pos hgt]
    · rw [if_neg hgt, if_neg hgt]
      cases tryMatch t N p <;> dsimp only <;> rw [ih]

theorem findFrom_append_dot (w N : Str) :
    ∀ fuel p, findFrom (w ++ [46]) N p fuel = findFrom w N p fuel := by
  intro fuel
  induction fuel with
  | zero => intro p; rfl
  | succ f ih =>
    intro p
    unfold findFrom
    rw [tryMatch_append_dot]
    by_cases hgt : p > w.length
    · by_cases hgt2 : p > (w ++ [46]).length
      · rw [if_pos (by simpa using hgt2), if_pos hgt]
      · have hpe : p = w.length + 1 := by simp at hgt2; omega
        rw [if_neg (by simp; omega), if_pos hgt]
        have hnone : tryMatch w N p = none := by
          unfold tryMatch
          rw [boundary_oob w p (by omega)]
          rfl
        rw [hnone]
        dsimp only
        rw [ih (p + 1), findFrom_oob w N f (p + 1) (by omega)]
    · rw [if_neg (by simp; omega), if_neg hgt]
      cases tryMatch w N p <;> dsimp only <;> rw [ih]

theorem findMatches_append_dot (w N : Str) :
    findMatches (w ++ [46]) N = findMatches w N := by
  unfold findMatches
  rw [findFrom_append_dot]
  apply findFrom_fuel
  · simp
  · omega

theorem findMatches_map_congr {s t : Str} (h : s.map toLowerC = t.map toLowerC)
    (N : Str) : findMatches s N = findMatches t N := by
  have hlen : s.length = t.length := by
    have h2 := congrArg List.length h
    simpa using h2
  unfold findMatches
  rw [findFrom_map_congr h]
  apply findFrom_fuel <;> omega

theorem tryMatch_bound {t N : Str} {p len : Nat} (h : tryMatch t N p = some len) :
    p + len ≤ t.length := by
  unfold tryMatch at h
  by_cases hg : (boundary t p && ciStarts N (t.drop p)) = true
  · rw [if_pos hg] at h
    obtain ⟨suf, hfind, hlen⟩ := Option.map_eq_some'.mp h
    have hpred := List.find?_some hfind
    simp only [Bool.and_eq_true] at hpred hg
    have h1 := ciStarts_length_le hg.2
    have h2 := ciStarts_length_le hpred.1
    have hple : p ≤ t.length := by
      by_contra hc
      rw [boundary_oob t p (by omega)] at hg
      exact Bool.false_ne_true hg.1
    simp only [List.length_drop] at h1 h2
    omega
  · rw [if_neg hg] at h
    exact absurd h (by simp)

theorem findFrom_bound (t N : Str) :
    ∀ fuel p m, m ∈ findFrom t N p fuel → m.1 + m.2 ≤ t.length := by
  intro fuel
  induction fuel with
  | zero => intro p m hm; simp [findFrom] at hm
  | succ f ih =>
    intro p m hm
    unfold findFrom at hm
    by_cases hgt : p > t.length
    · rw [if_pos hgt] at hm
      simp at hm
    · rw [if_neg hgt] at hm
      cases hma : tryMatch t N p with
      | some len =>
        rw [hma] at hm
        dsimp only at hm
        rcases List.mem_cons.mp hm with h1 | h1
        · subst h1; exact tryMatch_bound hma
        · exact ih _ m h1
      | none =>
        rw [hma] at hm
        dsimp only at hm
        exact ih _ m hm

theorem findMatches_bound {t N : Str} {m : Nat × Nat} (h : m ∈ findMatches t N) :
    m.1 + m.2 ≤ t.length :=
  findFrom_bound t N _ 0 m h

/-! ## Formatter lemmas: splicing and the capitalization loop -/

theorem splice_length {drctn res : Str} {m : Nat × Nat}
    (hd : m.1 + m.2 ≤ drctn.length) (hr : drctn.length ≤ res.length) :
    (splice drctn res m).length = res.length := by
  unfold splice
  simp only [List.length_append, List.length_take, List.length_map, List.length_drop]
  omega

theorem splice_get? {drctn res : Str} {m : Nat × Nat}
    (hd : m.1 + m.2 ≤ drctn.length) (hr : drctn.length ≤ res.length) (p : Nat) :
    (splice drctn res m).get? p =
      if m.1 ≤ p ∧ p < m.1 + m.2 then (drctn.get? p).map toUpperC
      else res.get? p := by
  unfold splice
  have hlt : (res.take m.1).length = m.1 := by simp; omega
  have hmid : (((drctn.drop m.1).take m.2).map toUpperC).length = m.2 := by
    simp only [List.length_map, List.length_take, List.length_drop]
    omega
  by_cases h1 : p < m.1
  · rw [if_neg (by omega),
      List.get?_append (by rw [List.length_append, hlt, hmid]; omega),
      List.get?_append (by rw [hlt]; omega)]
    exact List.get?_take (by omega)
  · by_cases h2 : p < m.1 + m.2
    · rw [if_pos ⟨by omega, h2⟩,
        List.get?_append (by rw [List.length_append, hlt, hmid]; omega),
        List.get?_append_right (by rw [hlt]; omega), hlt,
        List.get?_map, List.get?_take (by omega), List.get?_drop]
      have he : m.1 + (p - m.1) = p := by omega
      rw [he]
    · rw [if_neg (by omega),
        List.get?_append_right (by rw [List.length_append, hlt, hmid]; omega),
        List.length_append, hlt, hmid, List.get?_drop]
      have he : m.1 + m.2 + (p - (m.1 + m.2)) = p := by omega
      rw [he]

theorem foldl_splice_length (drctn : Str) (ms : List (Nat × Nat))
    (hms : ∀ m ∈ ms, m.1 + m.2 ≤ drctn.length) :
    ∀ res : Str, drctn.length ≤ res.length →
      (ms.foldl (splice drctn) res).length = res.length := by
  induction ms with
  | nil => intro res _; rfl
  | cons m ms ih =>
    intro res hr
    simp only [List.foldl_cons]
    have hm := hms m (by simp)
    rw [ih (fun x hx => hms x (by simp [hx])) _
        (by rw [splice_length hm hr]; exact hr)]
    exact splice_length hm hr

theorem foldl_splice_get? (drctn : Str) (ms : List (Nat × Nat))
    (hms : ∀ m ∈ ms, m.1 + m.2 ≤ drctn.length) :
    ∀ (res : Str), drctn.length ≤ res.length → ∀ p,
      (ms.foldl (splice drctn) res).get? p =
        if ms.any fun m => decide (m.1 ≤ p ∧ p < m.1 + m.2)
        then (drctn.get? p).map toUpperC else res.get? p := by
  induction ms with
  | nil => intro res hr p; simp
  | cons m ms ih =>
    intro res hr p
    simp only [List.foldl_cons, List.any_cons]
    have hm := hms m (by simp)
    rw [ih (fun x hx => hms x (by simp [hx])) _
        (by rw [splice_length hm hr]; exact hr) p]
    rw [splice_get? hm hr p]
    by_cases hc : m.1 ≤ p ∧ p < m.1 + m.2
    · rw [if_pos hc]
      simp [hc]
    · rw [if_neg hc]
      simp only [decide_eq_false hc, Bool.false_or]

theorem applyNoun_length {drctn res : Str} (N : Str) (hr : drctn.length ≤ res.length) :
    (applyNoun drctn res N).length = res.length :=
  foldl_splice_length drctn _ (fun _ hm => findMatches_bound hm) res hr

theorem applyNoun_get? {drctn res : Str} (N : Str) (hr : drctn.length ≤ res.length)
    (p : Nat) :
    (applyNoun drctn res N).get? p =
      if (findMatches drctn N).any fun m => decide (m.1 ≤ p ∧ p < m.1 + m.2)
      then (drctn.get? p).map toUpperC else res.get? p :=
  foldl_splice_get? drctn _ (fun _ hm => findMatches_bound hm) res hr p

theorem capitalize_length {drctn : Str} (nouns : List Str) :
    ∀ res : Str, drctn.length ≤ res.length →
      (capitalize drctn res nouns).length = res.length := by
  induction nouns with
  | nil => intro res _; rfl
  | cons N ns ih =>
    intro res hr
    unfold capitalize
    rw [List.foldl_cons]
    have h2 := ih (applyNoun drctn res N) (by rw [applyNoun_length N hr]; exact hr)
    unfold capitalize at h2
    rw [h2, applyNoun_length N hr]

theorem capitalize_get? {drctn : Str} (nouns : List Str) :
    ∀ (res : Str), drctn.length ≤ res.length → ∀ p,
      (capitalize drctn res nouns).get? p =
        if coveredB drctn nouns p then (drctn.get? p).map toUpperC
        else res.get? p := by
  induction nouns with
  | nil => intro res hr p; simp [capitalize, coveredB]
  | cons N ns ih =>
    intro res hr p
    unfold capitalize coveredB
    rw [List.foldl_cons, List.any_cons]
    have h2 := ih (applyNoun drctn res N) (by rw [applyNoun_length N hr]; exact hr) p
    unfold capitalize coveredB at h2
    rw [h2, applyNoun_get? N hr p]
    have hA := Bool.eq_false_or_eq_true ((findMatches drctn N).any fun m =>
      decide (m.1 ≤ p ∧ p < m.1 + m.2))
    have hB := Bool.eq_false_or_eq_true (ns.any fun N =>
      (findMatches drctn N).any fun m => decide (m.1 ≤ p ∧ p < m.1 + m.2))
    rcases hA with hN | hN <;> rcases hB with hns | hns <;>
      simp only [hN, hns, Bool.true_or, Bool.false_or, Bool.or_false, Bool.or_true] <;>
      simp

theorem coveredB_oob {drctn : Str} (nouns : List Str) {p : Nat}
    (h : drctn.length ≤ p) : coveredB drctn nouns p = false := by
  unfold coveredB
  rw [List.any_eq_false]
  intro N _
  rw [Bool.not_eq_true, List.any_eq_false]
  intro m hm
  have hb := findMatches_bound hm
  simp only [decide_eq_true_eq]
  omega

/-! ## Formatter lemmas: assembling the idempotence argument -/

theorem pnctTrue_ge (x : Str) : x.length ≤ (pnctTrue x).length := by
  unfold pnctTrue
  simp

theorem modifyStageDrctnSome_eq {nouns : List Str} {x : Str} (hx : x ≠ []) :
    modifyStageDrctnSome nouns x true = some (capitalize x (pnctTrue x) nouns) := by
  obtain ⟨c, hc⟩ := Option.isSome_iff_exists.mp (List.getLast?_isSome.mpr hx)
  unfold modifyStageDrctnSome pnctTrue
  rw [hc]
  rfl

theorem d2_get? (nouns : List Str) (x : Str) (p : Nat) :
    (capitalize x (pnctTrue x) nouns).get? p =
      if coveredB x nouns p then (x.get? p).map toUpperC
      else (pnctTrue x).get? p :=
  capitalize_get? nouns _ (pnctTrue_ge x) p

theorem covered_lt {nouns : List Str} {x : Str} {p : Nat}
    (hc : coveredB x nouns p = true) : p < x.length := by
  by_contra hge
  rw [coveredB_oob nouns (by omega)] at hc
  exact Bool.false_ne_true hc

theorem d2_toLower_eq (nouns : List Str) (x : Str) :
    (capitalize x (pnctTrue x) nouns).map toLowerC = (pnctTrue x).map toLowerC := by
  apply List.ext_get?
  intro p
  rw [List.get?_map, List.get?_map, d2_get?]
  by_cases hc : coveredB x nouns p = true
  · rw [if_pos hc]
    have hpx : (pnctTrue x).get? p = x.get? p := by
      unfold pnctTrue
      rw [List.get?_append (covered_lt hc)]
    rw [hpx]
    cases x.get? p with
    | none => rfl
    | some c => simp [toLowerC_toUpperC]
  · rw [if_neg hc]

theorem pnct_concat_cases (x0 : Str) (cl : Nat) :
    (isPunct cl = true ∧ pnctTrue (x0 ++ [cl]) = x0 ++ [cl]) ∨
    (isPunct cl = false ∧ pnctTrue (x0 ++ [cl]) = (x0 ++ [cl]) ++ [46]) := by
  unfold pnctTrue
  rw [List.getLast?_concat]
  by_cases hp : isPunct cl = true
  · left
    refine ⟨hp, ?_⟩
    rw [show ((some cl).getD 0) = cl from rfl, if_pos hp, List.append_nil]
  · right
    refine ⟨by simpa using hp, ?_⟩
    rw [show ((some cl).getD 0) = cl from rfl, if_neg hp]

theorem findMatches_d2 (nouns : List Str) (x : Str) (hx : x ≠ []) (N : Str) :
    findMatches (capitalize x (pnctTrue x) nouns) N = findMatches x N := by
  have h1 := findMatches_map_congr (d2_toLower_eq nouns x) N
  obtain ⟨x0, cl, rfl⟩ : ∃ x0 cl, x = x0 ++ [cl] := by
    rcases List.eq_nil_or_concat x with h | ⟨x0, cl, h⟩
    · exact absurd h hx
    · exact ⟨x0, cl, by simpa [List.concat_eq_append] using h⟩
  rcases pnct_concat_cases x0 cl with ⟨_, hp⟩ | ⟨_, hp⟩
  · rw [h1, hp]
  · rw [h1, hp, findMatches_append_dot]

theorem coveredB_d2 (nouns : List Str) (x : Str) (hx : x ≠ []) (p : Nat) :
    coveredB (capitalize x (pnctTrue x) nouns) nouns p = coveredB x nouns p := by
  unfold coveredB
  have h := findMatches_d2 nouns x hx
  simp only [h]

theorem d2_getLast? (nouns : List Str) (x : Str) (hx : x ≠ []) :
    ∃ c, (capitalize x (pnctTrue x) nouns).getLast? = some c ∧ isPunct c = true := by
  have hlen := capitalize_length nouns (pnctTrue x) (pnctTrue_ge x)
  obtain ⟨x0, cl, rfl⟩ : ∃ x0 cl, x = x0 ++ [cl] := by
    rcases List.eq_nil_or_concat x with h | ⟨x0, cl, h⟩
    · exact absurd h hx
    · exact ⟨x0, cl, by simpa [List.concat_eq_append] using h⟩
  have hxlast : (x0 ++ [cl]).get? x0.length = some cl := List.get?_concat_length x0 cl
  rcases pnct_concat_cases x0 cl with ⟨hpu, hp⟩ | ⟨hpu, hp⟩
  · refine ⟨cl, ?_, hpu⟩
    have hl2 : (x0 ++ [cl]).length - 1 = x0.length := by simp
    rw [List.getLast?_eq_get?, hlen, d2_get?, hp, hl2]
    by_cases hc : coveredB (x0 ++ [cl]) nouns x0.length = true
    · rw [if_pos hc, hxlast]
      simp [toUpperC_of_isPunct hpu]
    · rw [if_neg hc, hxlast]
  · refine ⟨46, ?_, by decide⟩
    have hl2 : ((x0 ++ [cl]) ++ [46]).length - 1 = (x0 ++ [cl]).length := by simp
    rw [List.getLast?_eq_get?, hlen, d2_get?, hp, hl2]
    have hcov : coveredB (x0 ++ [cl]) nouns (x0.length + 1) = false :=
      coveredB_oob nouns (by simp)
    rw [if_neg (by simp [hcov]), List.get?_concat_length]

theorem modify_d2 (nouns : List Str) (x : Str) (hx : x ≠ []) :
    modifyStageDrctnSome nouns (capitalize x (pnctTrue x) nouns) true =
      some (capitalize (capitalize x (pnctTrue x) nouns)
        (capitalize x (pnctTrue x) nouns) nouns) := by
  obtain ⟨c, hlast, hpc⟩ := d2_getLast? nouns x hx
  unfold modifyStageDrctnSome
  rw [hlast]
  dsimp only
  rw [if_pos rfl, if_pos hpc, List.append_nil]

theorem capitalize_d2_self (nouns : List Str) (x : Str) (hx : x ≠ []) :
    capitalize (capitalize x (pnctTrue x) nouns)
        (capitalize x (pnctTrue x) nouns) nouns =
      capitalize x (pnctTrue x) nouns := by
  apply List.ext_get?
  intro p
  rw [capitalize_get? nouns _ (le_refl _) p, coveredB_d2 nouns x hx p]
  by_cases hc : coveredB x nouns p = true
  · rw [if_pos hc, d2_get?, if_pos hc]
    cases x.get? p with
    | none => rfl
    | some c => simp [toUpperC_toUpperC]
  · rw [if_neg hc]

theorem findMatches_eq_nil {x N : Str}
    (h : ∀ p ≤ x.length, ciStarts N (x.drop p) = false) : findMatches x N = [] := by
  have htm : ∀ p, tryMatch x N p = none := by
    intro p
    unfold tryMatch
    by_cases hp : p ≤ x.length
    · rw [h p hp]
      simp
    · have hd : x.drop p = x.drop x.length := by
        rw [List.drop_eq_nil_of_le (by omega), List.drop_eq_nil_of_le (le_refl _)]
      rw [hd, h x.length (le_refl _)]
      simp
  have hff : ∀ fuel p, findFrom x N p fuel = [] := by
    intro fuel
    induction fuel with
    | zero => intro p; rfl
    | succ f ih =>
      intro p
      unfold findFrom
      rw [htm p]
      by_cases hgt : p > x.length
      · rw [if_pos hgt]
      · rw [if_neg hgt]
        exact ih (p + 1)
  exact hff _ 0

theorem capitalize_of_no_matches {x : Str} {nouns : List Str}
    (hmat : ∀ N ∈ nouns, findMatches x N = []) (res : Str) :
    capitalize x res nouns = res := by
  induction nouns generalizing res with
  | nil => rfl
  | cons N ns ih =>
    unfold capitalize
    rw [List.foldl_cons]
    have hA : applyNoun x res N = res := by
      unfold applyNoun
      rw [hmat N (by simp)]
      rfl
    have h2 := ih (fun M hM => hmat M (by simp [hM])) res
    unfold capitalize at h2
    rw [hA, h2]

/-! ## Claim theorems -/

/-- C1: the claim says `copy()` returns a fully independent deep clone of the
script.  The code never gets that far: `Script.copy`'s first statement reads
`self._title`, an attribute `__init__` never defines (it assigns `title`),
so every call raises `AttributeError` and no clone is ever produced. -/
theorem C1_copy_always_raises (s : Script) :
    Script.copy s = .error .attributeErrorNoTitle := rfl

/-- C2 counterexample: `CharacterLine("bob", "hello.", "smiling")` does not
render as `**BOB**:*(smiling)*\n\nhello.` — the code puts a single space
between the colon and the parenthetical (`f' *({self.stage_drctn})*'`). -/
theorem C2_counterexample :
    Section.export_to_markdown
        (.characterLine (str "bob") (str "hello.") (some (str "smiling"))) ≠
      str "**BOB**:*(smiling)*\n\nhello." ∧
    Section.export_to_markdown
        (.characterLine (str "bob") (str "hello.") (some (str "smiling"))) =
      str "**BOB**: *(smiling)*\n\nhello." :=
  ⟨by decide, by decide⟩

/-- C2 amended: a `CharacterLine` with a present stage direction renders as
`**NAME**:` (name upper-cased) followed by one space, then `*(direction)*`,
then two newlines, then the line verbatim; with no direction, nothing
stands between the colon and the two newlines. -/
theorem C2_amended (c l d : Str) :
    Section.export_to_markdown (.characterLine c l (some d)) =
      str "**" ++ upperStr c ++ str "**:" ++ str " *(" ++ d ++ str ")*" ++
        str "\n\n" ++ l ∧
    Section.export_to_markdown (.characterLine c l none) =
      str "**" ++ upperStr c ++ str "**:" ++ str "\n\n" ++ l := by
  constructor <;> simp [Section.export_to_markdown]

/-- C3 counterexample: on an empty script (0 scenes), `add_section(1, sec)`
with `sec = StageDirection("hi")` fails — but the passed-in section has
already been mutated by the formatter (its text is now `"hi."`), because
the formatter runs before the scene number is resolved. -/
theorem C3_counterexample :
    (Script.new.add_section 1 (.stageDirection (str "hi"))).1 =
        .error .indexOutOfRange ∧
    (Script.new.add_section 1 (.stageDirection (str "hi"))).2 ≠
        Section.stageDirection (str "hi") :=
  ⟨by decide, by decide⟩

/-- C3 amended: `add_section` first runs the formatter on the section
against the current roster snapshot and only then resolves `sceneNumber`;
when resolution fails, the call fails with the resolution error and the
script state is unchanged, but the passed-in section has already received
the formatter's mutation. -/
theorem C3_amended (s : Script) (k : Int) (sec sec2 : Section) (e : PyExn)
    (hfmt : s.format_section sec = (.ok sec2, sec2))
    (hres : s.scene_num_to_idx k = .error e) :
    s.add_section k sec = (.error e, sec2) := by
  unfold Script.add_section
  rw [hfmt, hres]

/-- Witness for C3 amended, at the counterexample input. -/
theorem C3_amended_witness :
    Script.new.add_section 1 (.stageDirection (str "hi")) =
      (.error .indexOutOfRange, .stageDirection (str "hi.")) :=
  C3_amended Script.new 1 (.stageDirection (str "hi")) (.stageDirection (str "hi."))
    .indexOutOfRange (by decide) (by decide)

/-- C4 counterexample: the claim says every `sceneNumber` below `-count`
fails.  On a one-scene script, `get_scene(-2)` succeeds and returns scene 1:
the negative branch of `_scene_num_to_idx` returns `scene_num + num_scenes`
(here `-1`) with no re-validation, and Python list indexing wraps it to the
last scene. -/
theorem C4_counterexample :
    isOkE ((Script.new.add_scene []).get_scene (-2)) = true ∧
    (Script.new.add_scene []).get_scene (-2) = .ok ⟨1, []⟩ :=
  ⟨by decide, by decide⟩

/-- C4 amended: every scene-addressing operation fails at `sceneNumber = 0`
(InvalidIndex) and for `sceneNumber > count` (OutOfRange); a negative
`sceneNumber` in `[-count, -1]` resolves to the same scene as its positive
counterpart `sceneNumber + count + 1`; but a `sceneNumber` below `-count`
is not re-validated: values in `[-2*count, -count-1]` wrap around (Python
list indexing) to the scene numbered `sceneNumber + 2*count + 1`, and only
values below `-2*count` fail. -/
theorem C4_amended (s : Script) (k i : Int) (sec : Section) :
    (isOkE (s.get_scene 0) = false ∧ isOkE (s.get_scene_length 0) = false ∧
     isOkE (s.delete_section 0 i) = false ∧ isOkE (s.add_section 0 sec).1 = false) ∧
    ((s.num_scenes : Int) < k →
      isOkE (s.get_scene k) = false ∧ isOkE (s.get_scene_length k) = false ∧
      isOkE (s.delete_section k i) = false ∧ isOkE (s.add_section k sec).1 = false) ∧
    (-(s.num_scenes : Int) ≤ k → k ≤ -1 →
      s.get_scene k = s.get_scene (k + (s.num_scenes : Int) + 1)) ∧
    (-(2 * (s.num_scenes : Int)) ≤ k → k ≤ -(s.num_scenes : Int) - 1 →
      s.get_scene k = s.get_scene (k + 2 * (s.num_scenes : Int) + 1)) ∧
    (k < -(2 * (s.num_scenes : Int)) → isOkE (s.get_scene k) = false) := by
  refine ⟨⟨?_, ?_, ?_, ?_⟩, fun hk => ⟨?_, ?_, ?_, ?_⟩, fun hk1 hk2 => ?_,
    fun hk1 hk2 => ?_, fun hk => ?_⟩
  · rw [get_scene_resolver_error (scene_num_to_idx_zero s)]; rfl
  · rw [get_scene_length_resolver_error (scene_num_to_idx_zero s)]; rfl
  · rw [delete_section_resolver_error (scene_num_to_idx_zero s)]; rfl
  · exact add_section_resolver_error (scene_num_to_idx_zero s)
  · rw [get_scene_resolver_error (scene_num_to_idx_high hk)]; rfl
  · rw [get_scene_length_resolver_error (scene_num_to_idx_high hk)]; rfl
  · rw [delete_section_resolver_error (scene_num_to_idx_high hk)]; rfl
  · exact add_section_resolver_error (scene_num_to_idx_high hk)
  · unfold Script.get_scene pyGet
    rw [scene_num_to_idx_neg (by omega), scene_num_to_idx_pos (by omega) (by omega)]
    have he : k + (s.num_scenes : Int) + 1 - 1 = k + (s.num_scenes : Int) := by ring
    dsimp only
    rw [he]
  · unfold Script.get_scene pyGet
    rw [scene_num_to_idx_neg (by omega), scene_num_to_idx_pos (by omega) (by omega)]
    dsimp only
    simp only [Script.num_scenes] at hk1 hk2 ⊢
    rw [pyIdx_neg (by omega) (by omega), pyIdx_nonneg (by omega) (by omega)]
    have he : (k + (s.scenes.length : Int) + (s.scenes.length : Int)).toNat =
        (k + 2 * (s.scenes.length : Int) + 1 - 1).toNat := by omega
    rw [he]
  · unfold Script.get_scene pyGet
    rw [scene_num_to_idx_neg (by omega)]
    dsimp only
    simp only [Script.num_scenes] at hk ⊢
    rw [pyIdx_low (by omega)]
    rfl


/-- Witness for C4 amended on a one-scene script, exercising every
conjunct (`k = 2`, `k = -1`, `k = -2`, `k = -3`). -/
theorem C4_amended_witness :
    (isOkE ((Script.new.add_scene []).get_scene 0) = false ∧
     isOkE ((Script.new.add_scene []).get_scene_length 0) = false ∧
     isOkE ((Script.new.add_scene []).delete_section 0 0) = false ∧
     isOkE ((Script.new.add_scene []).add_section 0 (.rawSection [])).1 = false) ∧
    (isOkE ((Script.new.add_scene []).get_scene 2) = false ∧
     isOkE ((Script.new.add_scene []).get_scene_length 2) = false ∧
     isOkE ((Script.new.add_scene []).delete_section 2 0) = false ∧
     isOkE ((Script.new.add_scene []).add_section 2 (.rawSection [])).1 = false) ∧
    (Script.new.add_scene []).get_scene (-1) =
      (Script.new.add_scene []).get_scene
        ((-1) + (((Script.new.add_scene []).num_scenes : Int)) + 1) ∧
    (Script.new.add_scene []).get_scene (-2) =
      (Script.new.add_scene []).get_scene
        ((-2) + 2 * (((Script.new.add_scene []).num_scenes : Int)) + 1) ∧
    isOkE ((Script.new.add_scene []).get_scene (-3)) = false :=
  ⟨(C4_amended (Script.new.add_scene []) 0 0 (.rawSection [])).1,
   (C4_amended (Script.new.add_scene []) 2 0 (.rawSection [])).2.1 (by decide),
   (C4_amended (Script.new.add_scene []) (-1) 0 (.rawSection [])).2.2.1
     (by decide) (by decide),
   (C4_amended (Script.new.add_scene []) (-2) 0 (.rawSection [])).2.2.2.1
     (by decide) (by decide),
   (C4_amended (Script.new.add_scene []) (-3) 0 (.rawSection [])).2.2.2.2
     (by decide)⟩

/-- C5: a script titled `"Play"`, no subtitle, one scene holding the single
`RawSection("Lights up.")`, exports exactly as the claimed string. -/
theorem C5_scenario_c :
    ((Script.new.set_title (str "Play")).add_scene
        [.rawSection (str "Lights up.")]).export_to_markdown =
      .ok (str "# Play\n\n<br/>\n\n<br/>\n\n## Scene 1\nLights up.") := by
  decide

/-- C6: the insertion-time stage-direction formatting — punctuation
enforcement in append mode followed by roster-name capitalization — is
idempotent: for every roster and every nonempty direction text, applying it
twice yields the same string as applying it once; moreover, when no roster
name occurs anywhere in the text (case-insensitively), the capitalization
loop leaves the punctuated text (indeed any text) unchanged. -/
theorem C6_formatter_idempotent (nouns : List Str) (x : Str) (hx : x ≠ []) :
    (modifyStageDrctnSome nouns x true).bind
        (fun y => modifyStageDrctnSome nouns y true) =
      modifyStageDrctnSome nouns x true ∧
    ((∀ N ∈ nouns, ∀ p ≤ x.length, ciStarts N (x.drop p) = false) →
      ∀ res, capitalize x res nouns = res) := by
  constructor
  · rw [modifyStageDrctnSome_eq hx]
    show modifyStageDrctnSome nouns (capitalize x (pnctTrue x) nouns) true = _
    rw [modify_d2 nouns x hx, capitalize_d2_self nouns x hx]
  · intro hno res
    exact capitalize_of_no_matches (fun N hN => findMatches_eq_nil (hno N hN)) res

/-- Witness for C6 with roster `["Anna"]`, idempotence at `"anna walks in"`
and the no-occurrence case at `"hi"`. -/
theorem C6_witness :
    ((modifyStageDrctnSome [str "Anna"] (str "anna walks in") true).bind
        (fun y => modifyStageDrctnSome [str "Anna"] y true) =
      modifyStageDrctnSome [str "Anna"] (str "anna walks in") true) ∧
    capitalize (str "hi") (str "hi.") [str "Anna"] = str "hi." :=
  ⟨(C6_formatter_idempotent [str "Anna"] (str "anna walks in") (by decide)).1,
   (C6_formatter_idempotent [str "Anna"] (str "hi") (by decide)).2 (by decide)
     (str "hi.")⟩

/-- C7: in every script state reachable from `Script()` by the public
operations, the scene stored at zero-based position `i` carries scene
number `i + 1`: `add_scene` fixes the number at creation as
`1 + current scene count` and no later operation rewrites it. -/
theorem C7_scene_numbers (s : Script) (hs : Reachable s) (i : Nat) (sc : Scene)
    (hi : s.scenes.get? i = some sc) : sc.scene_num = (i : Int) + 1 :=
  sceneNumInv_of_reachable hs i sc hi

/-- Witness for C7 on the one-scene script reached by a single `add_scene`. -/
theorem C7_witness : (Scene.mk 1 []).scene_num = ((0 : Nat) : Int) + 1 :=
  C7_scene_numbers (Script.new.add_scene []) (Reachable.add_scene Reachable.init) 0
    (Scene.mk 1 []) (by decide)

/-- C8: over the valid range `1 ≤ k ≤ num_scenes`,
`get_scene (-(count - k + 1))` resolves to the same scene as `get_scene k`. -/
theorem C8_negative_index_equiv (s : Script) (k : Int)
    (h1 : 1 ≤ k) (h2 : k ≤ (s.num_scenes : Int)) :
    s.get_scene (-((s.num_scenes : Int) - k + 1)) = s.get_scene k := by
  unfold Script.get_scene Script.scene_num_to_idx
  have hk : -((s.num_scenes : Int) - k + 1) + (s.num_scenes : Int) = k - 1 := by ring
  split_ifs with h3 h4 h5 h6 h7 h8 <;> try omega
  rw [hk]

/-- Witness for C8 on a one-scene script with `k = 1`. -/
theorem C8_witness :
    (Script.new.add_scene []).get_scene
        (-((((Script.new.add_scene []).num_scenes : Int)) - 1 + 1)) =
      (Script.new.add_scene []).get_scene 1 :=
  C8_negative_index_equiv (Script.new.add_scene []) 1 (by decide) (by decide)

/-- C9: `export_to_markdown` fails (with the missing-title `ValueError`)
exactly when the title is unset, and always returns a string otherwise;
it performs no mutation (it is a pure function of the script). -/
theorem C9_export_missing_title (s : Script) :
    (s.export_to_markdown = .error .valueErrorTitleNotSet ↔ s.title = none) ∧
    (s.title ≠ none → ∃ out, s.export_to_markdown = .ok out) := by
  unfold Script.export_to_markdown
  cases s.title <;> simp

/-- Witness for C9 on a titled script. -/
theorem C9_witness :
    ((Script.new.set_title (str "T")).export_to_markdown =
        .error .valueErrorTitleNotSet ↔ (Script.new.set_title (str "T")).title = none) ∧
    ∃ out, (Script.new.set_title (str "T")).export_to_markdown = .ok out :=
  ⟨(C9_export_missing_title _).1, (C9_export_missing_title _).2 (by decide)⟩

/-- C10: on empty text the insertion-time formatter raises the string
`IndexError` (it reads the final character), so `add_section` fails for a
`StageDirection` with empty text, a `CharacterLine` with an empty line, and
a `CharacterLine` with a present but empty stage direction — regardless of
the scene number; on any nonempty text both formatter rules return
normally. -/
theorem C10_formatter_empty_text (s : Script) (k : Int) (c l : Str)
    (dOpt : Option Str) (nouns : List Str) (t : Str) (pb : Bool) (ht : t ≠ []) :
    (s.add_section k (.stageDirection [])).1 = .error .stringIndexOutOfRange ∧
    (s.add_section k (.characterLine c [] dOpt)).1 = .error .stringIndexOutOfRange ∧
    (s.add_section k (.characterLine c l (some []))).1 = .error .stringIndexOutOfRange ∧
    (modifyStageDrctnSome nouns t pb).isSome = true ∧
    (modifyLine t).isSome = true := by
  obtain ⟨t0, c0, rfl⟩ : ∃ t0 c0, t = t0 ++ [c0] := by
    rcases List.eq_nil_or_concat t with h | ⟨t0, c0, h⟩
    · exact absurd h ht
    · exact ⟨t0, c0, by simpa [List.concat_eq_append] using h⟩
  refine ⟨?_, ?_, ?_, ?_, ?_⟩
  · unfold Script.add_section Script.format_section modifyStageDrctnSome
    rfl
  · cases dOpt with
    | none =>
      unfold Script.add_section Script.format_section modifyStageDrctn modifyLine
      rfl
    | some d0 =>
      cases hm : modifyStageDrctnSome s.to_capitalize d0 false with
      | none =>
        simp [Script.add_section, Script.format_section, modifyStageDrctn, hm]
      | some d2 =>
        simp [Script.add_section, Script.format_section, modifyStageDrctn, hm,
          modifyLine]
  · unfold Script.add_section Script.format_section modifyStageDrctn
      modifyStageDrctnSome
    rfl
  · unfold modifyStageDrctnSome
    rw [List.getLast?_concat]
    rfl
  · unfold modifyLine
    rw [List.getLast?_concat]
    by_cases hp : isPunct c0 = true <;> simp [hp]

/-- Witness for C10 at concrete inputs. -/
theorem C10_witness :
    (Script.new.add_section 1 (.stageDirection [])).1 =
        .error .stringIndexOutOfRange ∧
    (Script.new.add_section 1 (.characterLine (str "b") [] none)).1 =
        .error .stringIndexOutOfRange ∧
    (Script.new.add_section 1 (.characterLine (str "b") (str "x") (some []))).1 =
        .error .stringIndexOutOfRange ∧
    (modifyStageDrctnSome [] (str "x") true).isSome = true ∧
    (modifyLine (str "x")).isSome = true :=
  C10_formatter_empty_text Script.new 1 (str "b") (str "x") none [] (str "x") true
    (by decide)

end ScriptCreator
